import Mathlib

/-!
Shallow embedding of `regions/shapes/ellipse.py` (`EllipsePixelRegion`,
`EllipseSkyRegion`) together with the parts of the `regions` package the
module calls that are not in the excerpt (`BoundingBox.from_float`,
`elliptical_overlap_grid`, the WCS helpers); those are modelled from the
specification and marked as such.

numpy floating-point arithmetic is idealised as exact real arithmetic,
except for the IEEE special values `inf`, `-inf` and `nan`, which the
`bounding_box` code relies on (`h / tan(0) = inf`, `arctan(inf) = pi/2`)
and which are therefore modelled explicitly by the `NPVal` type.  The pole
of `tan` at odd multiples of `pi/2` is modelled by the limiting value `inf`;
the sorting of the two candidate extrema in `bounding_box` makes the sign
of that limit irrelevant.  Angles are stored in radians (astropy converts
angle `Quantity`s to radians at every use site), so the literal `90 * u.deg`
appears here as `Real.pi / 2`.
-/

open MeasureTheory

/-- A scalar pixel coordinate, `regions.core.PixCoord` restricted to the
scalar case this module handles. -/
structure PixCoord where
  x : ℝ
  y : ℝ

/-- Integer pixel bounding box `{ixmin, ixmax, iymin, iymax}` describing a
half-open cell range.  Modelled from the spec: `regions.core.BoundingBox`
is not part of the excerpt. -/
structure BoundingBox where
  ixmin : ℤ
  ixmax : ℤ
  iymin : ℤ
  iymax : ℤ

/-- Modelled from the spec: `BoundingBox.from_float`.  Pixel centres sit at
integer coordinates and cell edges at half-integer offsets; the continuous
extremum is converted with floor for the minimum and ceil for the maximum
so that the integer box always fully contains the continuous extent. -/
noncomputable def BoundingBox.from_float (xmin xmax ymin ymax : ℝ) : BoundingBox :=
  ⟨⌊xmin + 0.5⌋, ⌈xmax + 0.5⌉, ⌊ymin + 0.5⌋, ⌈ymax + 0.5⌉⟩

/-- Modelled from the spec: `BoundingBox.shape = (iymax - iymin, ixmax - ixmin)`. -/
def BoundingBox.shape (b : BoundingBox) : ℕ × ℕ :=
  ((b.iymax - b.iymin).toNat, (b.ixmax - b.ixmin).toNat)

/-- A numpy floating-point value: a real number or one of the IEEE special
values `inf`, `-inf`, `nan`. -/
inductive NPVal where
  | real : ℝ → NPVal
  | inf : NPVal
  | ninf : NPVal
  | nan : NPVal

namespace NPVal

/-- IEEE negation. -/
def neg : NPVal → NPVal
  | real a => real (-a)
  | inf => ninf
  | ninf => inf
  | nan => nan

/-- IEEE addition: `inf + (-inf) = nan`, `nan` propagates. -/
def add : NPVal → NPVal → NPVal
  | nan, _ => nan
  | _, nan => nan
  | real a, real b => real (a + b)
  | real _, inf => inf
  | inf, real _ => inf
  | real _, ninf => ninf
  | ninf, real _ => ninf
  | inf, inf => inf
  | ninf, ninf => ninf
  | inf, ninf => nan
  | ninf, inf => nan

/-- IEEE multiplication: `0 * inf = nan`, `nan` propagates. -/
noncomputable def mul : NPVal → NPVal → NPVal
  | nan, _ => nan
  | _, nan => nan
  | real a, real b => real (a * b)
  | real a, inf => if 0 < a then inf else if a < 0 then ninf else nan
  | real a, ninf => if 0 < a then ninf else if a < 0 then inf else nan
  | inf, real b => if 0 < b then inf else if b < 0 then ninf else nan
  | ninf, real b => if 0 < b then ninf else if b < 0 then inf else nan
  | inf, inf => inf
  | inf, ninf => ninf
  | ninf, inf => ninf
  | ninf, ninf => inf

/-- IEEE subtraction. -/
noncomputable def sub (a b : NPVal) : NPVal := add a (neg b)

/-- IEEE division.  The zero of exact real arithmetic is unsigned and is
treated as IEEE `+0`: `a / 0 = inf` for `a > 0`, `-inf` for `a < 0`, and
`0 / 0 = nan`; `inf / 0 = inf`. -/
noncomputable def div : NPVal → NPVal → NPVal
  | nan, _ => nan
  | _, nan => nan
  | real a, real b =>
      if b = 0 then (if a = 0 then nan else if 0 < a then inf else ninf)
      else real (a / b)
  | real _, inf => real 0
  | real _, ninf => real 0
  | inf, real b => if 0 ≤ b then inf else ninf
  | ninf, real b => if 0 ≤ b then ninf else inf
  | inf, inf => nan
  | inf, ninf => nan
  | ninf, inf => nan
  | ninf, ninf => nan

/-- `np.sin`: `nan` on the special values. -/
noncomputable def sin : NPVal → NPVal
  | real a => real (Real.sin a)
  | _ => nan

/-- `np.cos`: `nan` on the special values. -/
noncomputable def cos : NPVal → NPVal
  | real a => real (Real.cos a)
  | _ => nan

/-- `np.arctan`: `arctan (inf) = pi/2`, `arctan (-inf) = -pi/2`. -/
noncomputable def arctan : NPVal → NPVal
  | real a => real (Real.arctan a)
  | inf => real (Real.pi / 2)
  | ninf => real (-(Real.pi / 2))
  | nan => nan

/-- IEEE `>` as used by `if dx1 > dx2`: any comparison with `nan` is false. -/
noncomputable def gtb : NPVal → NPVal → Bool
  | nan, _ => false
  | _, nan => false
  | real a, real b => decide (b < a)
  | inf, inf => false
  | inf, _ => true
  | real _, inf => false
  | ninf, _ => false
  | real _, ninf => true

/-- The finite value, if any.  `int()` of `inf` or `nan` raises in Python,
which the callers model as `none`. -/
def toReal? : NPVal → Option ℝ
  | real a => some a
  | _ => none

end NPVal

/-- `np.tan` on an exact angle: at an odd multiple of `pi/2` the pole is
modelled by its limiting magnitude `inf` (the float implementation produces
a huge finite value there; downstream, after `arctan` and the sorting of the
two extremum candidates, the exact-arithmetic results agree). -/
noncomputable def npTan (θ : ℝ) : NPVal :=
  if Real.cos θ = 0 then NPVal.inf else NPVal.real (Real.tan θ)

/-- `EllipsePixelRegion`: centre, full width and height (before rotation),
rotation angle in radians.  `incl` models `meta.get('include', True)`:
`none` when the meta mapping has no `'include'` key. -/
structure EllipsePixelRegion where
  center : PixCoord
  width : ℝ
  height : ℝ
  angle : ℝ
  incl : Option Bool

namespace EllipsePixelRegion

/-- The raw ellipse inequality of `EllipsePixelRegion.contains`
(`ellipse.py` lines 86-91): translate relative to the centre, rotate into
the local frame, test `(2 dx_local / width)^2 + (2 dy_local / height)^2 ≤ 1`. -/
def in_ell (e : EllipsePixelRegion) (p : PixCoord) : Prop :=
  (2 * (Real.cos e.angle * (p.x - e.center.x) + Real.sin e.angle * (p.y - e.center.y)) /
      e.width) ^ 2 +
    (2 * (Real.sin e.angle * (p.x - e.center.x) - Real.cos e.angle * (p.y - e.center.y)) /
      e.height) ^ 2 ≤ 1

/-- `EllipsePixelRegion.contains` (lines 84-95): the raw inequality,
negated when `meta.get('include', True)` is false. -/
def contains (e : EllipsePixelRegion) (p : PixCoord) : Prop :=
  if e.incl.getD true then e.in_ell p else ¬ e.in_ell p

/-- `t1 = np.arctan(-self.height * tan_angle / self.width)` (line 122). -/
noncomputable def bbox_t1x (e : EllipsePixelRegion) : NPVal :=
  NPVal.arctan (NPVal.div (NPVal.mul (NPVal.real (-e.height)) (npTan e.angle))
    (NPVal.real e.width))

/-- `0.5*width*cos_angle*np.cos(t) - 0.5*height*sin_angle*np.sin(t)`
(lines 125-126). -/
noncomputable def bbox_dx_at (e : EllipsePixelRegion) (t : NPVal) : NPVal :=
  NPVal.sub (NPVal.mul (NPVal.real (0.5 * e.width * Real.cos e.angle)) (NPVal.cos t))
    (NPVal.mul (NPVal.real (0.5 * e.height * Real.sin e.angle)) (NPVal.sin t))

/-- `t1 = np.arctan(self.height / tan_angle / self.width)` (line 131);
its leftmost division has divisor `tan_angle`, which is zero whenever the
angle is a multiple of `pi`. -/
noncomputable def bbox_t1y (e : EllipsePixelRegion) : NPVal :=
  NPVal.arctan (NPVal.div (NPVal.div (NPVal.real e.height) (npTan e.angle))
    (NPVal.real e.width))

/-- `0.5*height*cos_angle*np.sin(t) + 0.5*width*sin_angle*np.cos(t)`
(lines 134-135). -/
noncomputable def bbox_dy_at (e : EllipsePixelRegion) (t : NPVal) : NPVal :=
  NPVal.add (NPVal.mul (NPVal.real (0.5 * e.height * Real.cos e.angle)) (NPVal.sin t))
    (NPVal.mul (NPVal.real (0.5 * e.width * Real.sin e.angle)) (NPVal.cos t))

/-- `if d1 > d2: d1, d2 = d2, d1` (lines 128-129 and 137-138). -/
noncomputable def sortPair (p : NPVal × NPVal) : NPVal × NPVal :=
  if NPVal.gtb p.1 p.2 then (p.2, p.1) else p

/-- `EllipsePixelRegion.bounding_box` (lines 107-145).  The code has no
special case for axis-aligned angles: both extremum parameters are always
evaluated, with IEEE semantics supplying `inf` and `arctan inf = pi/2`
where exact arithmetic has a division by zero.  `none` models the
`ValueError`/`OverflowError` that `int()` raises inside
`BoundingBox.from_float` when an extremum is `nan` or infinite. -/
noncomputable def bounding_box (e : EllipsePixelRegion) : Option BoundingBox :=
  let dxp := sortPair (e.bbox_dx_at e.bbox_t1x,
    e.bbox_dx_at (NPVal.add e.bbox_t1x (NPVal.real Real.pi)))
  let dyp := sortPair (e.bbox_dy_at e.bbox_t1y,
    e.bbox_dy_at (NPVal.add e.bbox_t1y (NPVal.real Real.pi)))
  match (NPVal.add (NPVal.real e.center.x) dxp.1).toReal?,
      (NPVal.add (NPVal.real e.center.x) dxp.2).toReal?,
      (NPVal.add (NPVal.real e.center.y) dyp.1).toReal?,
      (NPVal.add (NPVal.real e.center.y) dyp.2).toReal? with
  | some xmin, some xmax, some ymin, some ymax =>
      some (BoundingBox.from_float xmin xmax ymin ymax)
  | _, _, _, _ => none

end EllipsePixelRegion

/-- The rasterization mode argument of `to_mask`. -/
inductive Mode where
  | center : Mode
  | subpixels : Mode
  | exact : Mode
deriving DecidableEq

/-- Modelled from the spec: the per-point containment test used by the
`_geometry.elliptical_overlap_grid` rasterizer (not in the excerpt) —
the ellipse test of §4.2 for an ellipse with semi-axes `rx`, `ry` rotated
by `θ` and centred at the origin. -/
def in_ellipse (rx ry θ x y : ℝ) : Prop :=
  ((Real.cos θ * x + Real.sin θ * y) / rx) ^ 2 +
    ((Real.sin θ * x - Real.cos θ * y) / ry) ^ 2 ≤ 1

open scoped Classical in
/-- Modelled from the spec: subpixel sampling of one grid cell with lower
edge `(x0, y0)` and size `dx × dy` — subdivide into `s × s` subcells, test
each subcell centre, report the fraction of subcell centres inside. -/
noncomputable def subpixel_fraction (x0 y0 dx dy rx ry θ : ℝ) (s : ℕ) : ℝ :=
  ((Finset.range s ×ˢ Finset.range s).filter fun ab =>
    in_ellipse rx ry θ (x0 + ((ab.1 : ℝ) + 0.5) * (dx / s))
      (y0 + ((ab.2 : ℝ) + 0.5) * (dy / s))).card / (s ^ 2 : ℝ)

/-- The region of the plane covered by the origin-centred rotated ellipse. -/
def ellipse_set (rx ry θ : ℝ) : Set (ℝ × ℝ) := {p | in_ellipse rx ry θ p.1 p.2}

/-- Modelled from the spec: the `exact` overlap mode — the coverage
fraction of a cell is the proportion (0 to 1) of the cell's area lying
inside the ellipse. -/
noncomputable def exact_fraction (x0 x1 y0 y1 rx ry θ : ℝ) : ℝ :=
  (volume (ellipse_set rx ry θ ∩ Set.Icc x0 x1 ×ˢ Set.Icc y0 y1) /
    volume (Set.Icc x0 x1 ×ˢ Set.Icc y0 y1)).toReal

/-- Modelled from the spec: `_geometry.elliptical_overlap_grid` — an
`ny × nx` grid of per-cell coverage fractions over the pixel-edge window
`[xmin, xmax] × [ymin, ymax]`, by exact area when `use_exact` and by
`subpixels × subpixels` sampling otherwise. -/
noncomputable def elliptical_overlap_grid (xmin xmax ymin ymax : ℝ) (nx ny : ℕ)
    (rx ry θ : ℝ) (use_exact : Bool) (subpixels : ℕ) : ℕ → ℕ → ℝ :=
  fun i j =>
    let dx := (xmax - xmin) / nx
    let dy := (ymax - ymin) / ny
    let x0 := xmin + j * dx
    let y0 := ymin + i * dy
    if use_exact then exact_fraction x0 (x0 + dx) y0 (y0 + dy) rx ry θ
    else subpixel_fraction x0 y0 dx dy rx ry θ subpixels

/-- `RegionMask`: the fraction grid together with the bounding box it is
placed at.  The grid is kept as a total function; the live indices are
`i < bbox.shape.1`, `j < bbox.shape.2`. -/
structure RegionMask where
  data : ℕ → ℕ → ℝ
  bbox : BoundingBox

namespace EllipsePixelRegion

/-- `EllipsePixelRegion.to_mask` (lines 147-179): validate the mode
(`_validate_mode` is modelled from the spec: `subpixels ≥ 1` must hold),
rewrite `center` to `subpixels`/`subpixels=1`, size the grid from the
bounding box, move to pixel-edge coordinates recentred on the ellipse, and
rasterize.  `none` models the validation error and the bounding-box
failure. -/
noncomputable def to_mask (e : EllipsePixelRegion) (mode : Mode) (subpixels : ℕ) :
    Option RegionMask :=
  if subpixels < 1 then none
  else
    let ms : Mode × ℕ := if mode = Mode.center then (Mode.subpixels, 1) else (mode, subpixels)
    match e.bounding_box with
    | none => none
    | some bbox =>
        let ny := (bbox.iymax - bbox.iymin).toNat
        let nx := (bbox.ixmax - bbox.ixmin).toNat
        let xmin := (bbox.ixmin : ℝ) - 0.5 - e.center.x
        let xmax := (bbox.ixmax : ℝ) - 0.5 - e.center.x
        let ymin := (bbox.iymin : ℝ) - 0.5 - e.center.y
        let ymax := (bbox.iymax : ℝ) - 0.5 - e.center.y
        let use_exact : Bool := if ms.1 = Mode.subpixels then false else true
        some ⟨elliptical_overlap_grid xmin xmax ymin ymax nx ny
          (0.5 * e.width) (0.5 * e.height) e.angle use_exact ms.2, bbox⟩

end EllipsePixelRegion

/-- An angular sky position (`astropy.coordinates.SkyCoord`), kept opaque
apart from being a single point. -/
structure SkyCoord where
  lon : ℝ
  lat : ℝ

/-- Modelled from the spec: the external projection primitive.
`pixel_to_skycoord` projects a pixel point to the sky;
`linearize` is `skycoord_to_pixel_scale_angle`: at a sky point it returns
the pixel position together with the local `scale`
(sky-angle-per-pixel, as used: pixel-per-sky-degree) and `north_angle`. -/
structure WCS where
  pixel_to_skycoord : PixCoord → SkyCoord
  linearize : SkyCoord → PixCoord × ℝ × ℝ

/-- `EllipseSkyRegion`: centre on the sky, width/height/angle angular
(stored in degrees for the lengths and radians for the angle, consistently
with the pixel variant). -/
structure EllipseSkyRegion where
  center : SkyCoord
  width : ℝ
  height : ℝ
  angle : ℝ
  incl : Option Bool

/-- `EllipsePixelRegion.to_sky` (lines 97-105): project the centre, divide
the axis lengths by the local scale, subtract `north_angle - 90°` from the
rotation angle, pass the meta through. -/
noncomputable def EllipsePixelRegion.to_sky (e : EllipsePixelRegion) (wcs : WCS) :
    EllipseSkyRegion :=
  let center := wcs.pixel_to_skycoord e.center
  let scale := (wcs.linearize center).2.1
  let north_angle := (wcs.linearize center).2.2
  { center := center
    width := e.width / scale
    height := e.height / scale
    angle := e.angle - (north_angle - Real.pi / 2)
    incl := e.incl }

/-- `EllipseSkyRegion.to_pixel` (lines 345-353): inverse-project the centre
to a scalar pixel point, multiply the axis lengths by the local scale, add
`north_angle - 90°` to the rotation angle, pass the meta through. -/
noncomputable def EllipseSkyRegion.to_pixel (s : EllipseSkyRegion) (wcs : WCS) :
    EllipsePixelRegion :=
  let c := wcs.linearize s.center
  { center := c.1
    width := s.width * c.2.1
    height := s.height * c.2.1
    angle := s.angle + (c.2.2 - Real.pi / 2)
    incl := s.incl }

/-- The two failure cases of `as_mpl_selector`: the `Exception` raised for
a second binding and the `NotImplementedError` raised for a rotated
ellipse (the spec's `UnsupportedOperation` taxonomy covers both). -/
inductive SelectorError where
  | alreadyBound : SelectorError
  | rotatedRegion : SelectorError

/-- `EllipsePixelRegion.as_mpl_selector` (lines 222-286) reduced to its
binding-state contract: `bound` models `hasattr(self, '_mpl_selector')`.
Both checks happen before any state is touched, so the error cases leave
the region unchanged; on success the unchanged region is returned together
with the new bound flag. -/
noncomputable def EllipsePixelRegion.as_mpl_selector (e : EllipsePixelRegion)
    (bound : Bool) : Except SelectorError (EllipsePixelRegion × Bool) :=
  if bound then .error .alreadyBound
  else if e.angle ≠ 0 then .error .rotatedRegion
  else .ok (e, true)

/-- The concrete ellipse of the spec's scenario: `center=(15,10)`,
`width=16`, `height=10`, `angle=0°`, no `'include'` key. -/
def E0 : EllipsePixelRegion := ⟨⟨15, 10⟩, 16, 10, 0, none⟩

/-- A small unrotated ellipse used as a concrete witness input. -/
def E1 : EllipsePixelRegion := ⟨⟨0, 0⟩, 2, 2, 0, none⟩

/-- A degenerate ellipse (`height = 0`) admitted by the data model
(`width, height ≥ 0`). -/
def Edeg : EllipsePixelRegion := ⟨⟨0, 0⟩, 1, 0, 0, none⟩

/-! Helper lemmas. -/

lemma cos_int_mul_pi_cases (m : ℤ) :
    Real.cos ((m : ℝ) * Real.pi) = 1 ∨ Real.cos ((m : ℝ) * Real.pi) = -1 := by
  rcases Int.even_or_odd m with ⟨j, hj⟩ | ⟨j, hj⟩
  · left
    have hθ : ((m : ℝ)) * Real.pi = (j : ℝ) * (2 * Real.pi) := by
      subst hj; push_cast; ring
    rw [hθ]
    exact Real.cos_int_mul_two_pi j
  · right
    have hθ : ((m : ℝ)) * Real.pi = (j : ℝ) * (2 * Real.pi) + Real.pi := by
      subst hj; push_cast; ring
    rw [hθ]
    exact Real.cos_int_mul_two_pi_add_pi j

/-- At an even multiple of `pi/2` — a multiple of `pi` — the code's
`tan_angle` is exactly zero. -/
lemma npTan_int_mul_pi (m : ℤ) : npTan ((m : ℝ) * Real.pi) = NPVal.real 0 := by
  have hs : Real.sin ((m : ℝ) * Real.pi) = 0 := Real.sin_int_mul_pi m
  have hc : Real.cos ((m : ℝ) * Real.pi) ≠ 0 := by
    rcases cos_int_mul_pi_cases m with h | h <;> rw [h] <;> norm_num
  unfold npTan
  rw [if_neg hc, Real.tan_eq_sin_div_cos, hs, zero_div]

/-- `bounding_box` at an angle `m * pi` (an even multiple of 90°): the
`h / tan / w` chain divides by zero, IEEE semantics give `inf`, `arctan`
maps it to `pi/2`, and the extrema come out axis-aligned. -/
lemma bounding_box_axis_even (cx cy w h : ℝ) (inc : Option Bool) (m : ℤ)
    (hw : 0 < w) (hh : 0 < h) :
    EllipsePixelRegion.bounding_box ⟨⟨cx, cy⟩, w, h, (m : ℝ) * Real.pi, inc⟩ =
      some (BoundingBox.from_float (cx - w / 2) (cx + w / 2) (cy - h / 2) (cy + h / 2)) := by
  have hs : Real.sin ((m : ℝ) * Real.pi) = 0 := Real.sin_int_mul_pi m
  have htan : npTan ((m : ℝ) * Real.pi) = NPVal.real 0 := npTan_int_mul_pi m
  rcases cos_int_mul_pi_cases m with hc | hc
  · simp only [EllipsePixelRegion.bounding_box, EllipsePixelRegion.bbox_t1x,
      EllipsePixelRegion.bbox_t1y, EllipsePixelRegion.bbox_dx_at,
      EllipsePixelRegion.bbox_dy_at, EllipsePixelRegion.sortPair, htan, hs, hc,
      NPVal.mul, NPVal.div, NPVal.add, NPVal.sub, NPVal.neg, NPVal.arctan,
      NPVal.sin, NPVal.cos, NPVal.gtb, NPVal.toReal?, hw.ne', hh.ne', hh, hw.le,
      mul_zero, zero_mul, mul_one, one_mul, zero_div, Real.arctan_zero,
      Real.cos_zero, Real.sin_zero, Real.cos_pi, Real.sin_pi,
      Real.sin_pi_div_two, Real.cos_pi_div_two, Real.sin_add_pi, Real.cos_add_pi,
      zero_add, add_zero, decide_eq_true_eq, if_true, if_false]
    have h1 : (0.5 * w * -1 + -0 : ℝ) < 0.5 * w + -0 := by linarith
    have h2 : (0.5 * h * -1 : ℝ) < 0.5 * h := by linarith
    rw [if_pos h1, if_pos h2]
    simp only [NPVal.add, NPVal.toReal?]
    ring_nf
  · simp only [EllipsePixelRegion.bounding_box, EllipsePixelRegion.bbox_t1x,
      EllipsePixelRegion.bbox_t1y, EllipsePixelRegion.bbox_dx_at,
      EllipsePixelRegion.bbox_dy_at, EllipsePixelRegion.sortPair, htan, hs, hc,
      NPVal.mul, NPVal.div, NPVal.add, NPVal.sub, NPVal.neg, NPVal.arctan,
      NPVal.sin, NPVal.cos, NPVal.gtb, NPVal.toReal?, hw.ne', hh.ne', hh, hw.le,
      mul_zero, zero_mul, mul_one, one_mul, zero_div, Real.arctan_zero,
      Real.cos_zero, Real.sin_zero, Real.cos_pi, Real.sin_pi,
      Real.sin_pi_div_two, Real.cos_pi_div_two, Real.sin_add_pi, Real.cos_add_pi,
      zero_add, add_zero, decide_eq_true_eq, if_true, if_false]
    have h1 : ¬ ((0.5 * w * -1 * -1 + -0 : ℝ) < 0.5 * w * -1 + -0) := by
      rw [not_lt]; linarith
    have h2 : ¬ ((0.5 * h * -1 * -1 : ℝ) < 0.5 * h * -1) := by
      rw [not_lt]; linarith
    rw [if_neg h1, if_neg h2]
    simp only [NPVal.add, NPVal.toReal?]
    ring_nf

/-- `bounding_box` at an angle `m * pi + pi/2` (an odd multiple of 90°):
`tan` is at its pole, modelled as `inf`; the extrema come out axis-aligned
with width and height exchanged. -/
lemma bounding_box_axis_odd (cx cy w h : ℝ) (inc : Option Bool) (m : ℤ)
    (hw : 0 < w) (hh : 0 < h) :
    EllipsePixelRegion.bounding_box ⟨⟨cx, cy⟩, w, h, (m : ℝ) * Real.pi + Real.pi / 2, inc⟩ =
      some (BoundingBox.from_float (cx - h / 2) (cx + h / 2) (cy - w / 2) (cy + w / 2)) := by
  have hs0 : Real.sin ((m : ℝ) * Real.pi) = 0 := Real.sin_int_mul_pi m
  have hcθ : Real.cos ((m : ℝ) * Real.pi + Real.pi / 2) = 0 := by
    rw [Real.cos_add, Real.cos_pi_div_two, Real.sin_pi_div_two, hs0]; ring
  have hsθ : Real.sin ((m : ℝ) * Real.pi + Real.pi / 2) = Real.cos ((m : ℝ) * Real.pi) := by
    rw [Real.sin_add, Real.cos_pi_div_two, Real.sin_pi_div_two, hs0]; ring
  have htan : npTan ((m : ℝ) * Real.pi + Real.pi / 2) = NPVal.inf := by
    unfold npTan; rw [if_pos hcθ]
  have hn1 : ¬ ((0 : ℝ) < -h) := by linarith
  have hn2 : (-h : ℝ) < 0 := by linarith
  rcases cos_int_mul_pi_cases m with hc | hc
  · simp only [EllipsePixelRegion.bounding_box, EllipsePixelRegion.bbox_t1x,
      EllipsePixelRegion.bbox_t1y, EllipsePixelRegion.bbox_dx_at,
      EllipsePixelRegion.bbox_dy_at, EllipsePixelRegion.sortPair, htan, hcθ, hsθ, hc,
      NPVal.mul, NPVal.div, NPVal.add, NPVal.sub, NPVal.neg, NPVal.arctan,
      NPVal.sin, NPVal.cos, NPVal.gtb, NPVal.toReal?, hw.ne', hh.ne', hh, hw.le,
      hn1, hn2, mul_zero, zero_mul, mul_one, one_mul, zero_div, Real.arctan_zero,
      Real.cos_zero, Real.sin_zero, Real.cos_pi, Real.sin_pi, Real.sin_neg, Real.cos_neg,
      Real.sin_pi_div_two, Real.cos_pi_div_two, Real.sin_add_pi, Real.cos_add_pi,
      zero_add, add_zero, decide_eq_true_eq, if_true, if_false]
    have h1 : (-(0.5 * h * - -1) : ℝ) < -(0.5 * h * -1) := by linarith
    have h2 : (0.5 * w * -1 : ℝ) < 0.5 * w := by linarith
    rw [if_pos h1, if_pos h2]
    simp only [NPVal.add, NPVal.toReal?]
    ring_nf
  · simp only [EllipsePixelRegion.bounding_box, EllipsePixelRegion.bbox_t1x,
      EllipsePixelRegion.bbox_t1y, EllipsePixelRegion.bbox_dx_at,
      EllipsePixelRegion.bbox_dy_at, EllipsePixelRegion.sortPair, htan, hcθ, hsθ, hc,
      NPVal.mul, NPVal.div, NPVal.add, NPVal.sub, NPVal.neg, NPVal.arctan,
      NPVal.sin, NPVal.cos, NPVal.gtb, NPVal.toReal?, hw.ne', hh.ne', hh, hw.le,
      hn1, hn2, mul_zero, zero_mul, mul_one, one_mul, zero_div, Real.arctan_zero,
      Real.cos_zero, Real.sin_zero, Real.cos_pi, Real.sin_pi, Real.sin_neg, Real.cos_neg,
      Real.sin_pi_div_two, Real.cos_pi_div_two, Real.sin_add_pi, Real.cos_add_pi,
      zero_add, add_zero, decide_eq_true_eq, if_true, if_false]
    have h1 : ¬ ((-(0.5 * h * -1 * - -1) : ℝ) < -(0.5 * h * -1 * -1)) := by
      rw [not_lt]; linarith
    have h2 : ¬ ((0.5 * w * -1 * -1 : ℝ) < 0.5 * w * -1) := by
      rw [not_lt]; linarith
    rw [if_neg h1, if_neg h2]
    simp only [NPVal.add, NPVal.toReal?]
    ring_nf

/-- On the degenerate ellipse `Edeg` (`height = 0`, `angle = 0`) the code
computes `0/0 = nan`, the `nan` propagates to the y extrema, and
`int(nan)` raises: the bounding box is not produced. -/
lemma bounding_box_Edeg : EllipsePixelRegion.bounding_box Edeg = none := by
  have htan : npTan (0 : ℝ) = NPVal.real 0 := by
    unfold npTan
    rw [if_neg (by rw [Real.cos_zero]; norm_num), Real.tan_zero]
  norm_num only [Edeg, EllipsePixelRegion.bounding_box, EllipsePixelRegion.bbox_t1x,
    EllipsePixelRegion.bbox_t1y, EllipsePixelRegion.bbox_dx_at,
    EllipsePixelRegion.bbox_dy_at, EllipsePixelRegion.sortPair, htan,
    NPVal.mul, NPVal.div, NPVal.add, NPVal.sub, NPVal.neg, NPVal.arctan,
    NPVal.sin, NPVal.cos, NPVal.gtb, NPVal.toReal?,
    mul_zero, zero_mul, mul_one, one_mul, zero_div, neg_zero, Real.arctan_zero,
    Real.cos_zero, Real.sin_zero, Real.cos_pi, Real.sin_pi,
    zero_add, add_zero, decide_eq_true_eq, if_true, if_false]
  simp

/-- The bounding box of the concrete ellipse `E1`. -/
lemma bbox_E1 : EllipsePixelRegion.bounding_box E1 = some ⟨-1, 2, -1, 2⟩ := by
  have h := bounding_box_axis_even 0 0 2 2 none 0 (by norm_num) (by norm_num)
  norm_num [BoundingBox.from_float] at h
  have hc : ⌈(3 : ℝ) / 2⌉ = 2 := by norm_num [Int.ceil_eq_iff]
  rw [hc] at h
  exact h

lemma subpixel_fraction_mem (x0 y0 dx dy rx ry θ : ℝ) (s : ℕ) :
    0 ≤ subpixel_fraction x0 y0 dx dy rx ry θ s ∧
      subpixel_fraction x0 y0 dx dy rx ry θ s ≤ 1 := by
  classical
  unfold subpixel_fraction
  constructor
  · positivity
  · rcases Nat.eq_zero_or_pos s with hs | hs
    · simp [hs]
    · rw [div_le_one (by positivity)]
      have h1 := Finset.card_filter_le (Finset.range s ×ˢ Finset.range s)
        (fun ab => in_ellipse rx ry θ (x0 + ((ab.1 : ℝ) + 0.5) * (dx / s))
          (y0 + ((ab.2 : ℝ) + 0.5) * (dy / s)))
      have h2 : (Finset.range s ×ˢ Finset.range s).card = s * s := by
        rw [Finset.card_product, Finset.card_range]
      calc ((Finset.range s ×ˢ Finset.range s).filter _).card ≤ ((s : ℝ) * s) := by
            exact_mod_cast le_trans h1 (le_of_eq h2)
        _ = (s : ℝ) ^ 2 := by ring

lemma exact_fraction_mem (x0 x1 y0 y1 rx ry θ : ℝ) :
    0 ≤ exact_fraction x0 x1 y0 y1 rx ry θ ∧ exact_fraction x0 x1 y0 y1 rx ry θ ≤ 1 := by
  unfold exact_fraction
  refine ⟨ENNReal.toReal_nonneg, ?_⟩
  have hle : volume (ellipse_set rx ry θ ∩ Set.Icc x0 x1 ×ˢ Set.Icc y0 y1) /
      volume (Set.Icc x0 x1 ×ˢ Set.Icc y0 y1) ≤ 1 :=
    ENNReal.div_le_of_le_mul (by rw [one_mul]; exact measure_mono Set.inter_subset_right)
  have h := ENNReal.toReal_mono ENNReal.one_ne_top hle
  simpa using h

lemma elliptical_overlap_grid_mem (xmin xmax ymin ymax : ℝ) (nx ny : ℕ)
    (rx ry θ : ℝ) (use_exact : Bool) (subpixels : ℕ) (i j : ℕ) :
    0 ≤ elliptical_overlap_grid xmin xmax ymin ymax nx ny rx ry θ use_exact subpixels i j ∧
      elliptical_overlap_grid xmin xmax ymin ymax nx ny rx ry θ use_exact subpixels i j ≤ 1 := by
  unfold elliptical_overlap_grid
  dsimp only
  split
  · exact exact_fraction_mem _ _ _ _ _ _ _
  · exact subpixel_fraction_mem _ _ _ _ _ _ _ _

/-! The claims. -/

/-- C1: for every ellipse parameter set (any center, any width, height and
angle) and every rasterization mode, every entry of the CoverageMask
produced by `to_mask` lies in the closed interval `[0, 1]`. -/
theorem C1_to_mask_values_in_unit_interval (e : EllipsePixelRegion) (mode : Mode)
    (subpixels : ℕ) (m : RegionMask)
    (hm : e.to_mask mode subpixels = some m) (i j : ℕ) :
    0 ≤ m.data i j ∧ m.data i j ≤ 1 := by
  unfold EllipsePixelRegion.to_mask at hm
  split at hm
  · exact absurd hm (by simp)
  · split at hm
    all_goals
      split at hm
      · exact absurd hm (by simp)
      · injection hm with hm
        subst hm
        dsimp only
        exact elliptical_overlap_grid_mem _ _ _ _ _ _ _ _ _ _ _ i j

/-- Witness for C1: the mask of the concrete ellipse `E1` exists and its
entry `(0, 0)` lies in `[0, 1]`. -/
theorem C1_witness :
    (EllipsePixelRegion.to_mask E1 Mode.center 5).elim False
      (fun m => 0 ≤ m.data 0 0 ∧ m.data 0 0 ≤ 1) := by
  have hsome : (EllipsePixelRegion.to_mask E1 Mode.center 5).isSome = true := by
    simp [EllipsePixelRegion.to_mask, bbox_E1]
  obtain ⟨m, hm⟩ := Option.isSome_iff_exists.mp hsome
  rw [hm]
  exact C1_to_mask_values_in_unit_interval E1 Mode.center 5 m hm 0 0

/-- C2: for every ellipse, `to_mask` with `mode='center'` produces a
CoverageMask identical (same bounding box, entry-for-entry equal) to
`to_mask` with `mode='subpixels'` and `subpixels=1` — the code rewrites
the former into the latter before rasterizing. -/
theorem C2_center_mode_equals_subpixels_one (e : EllipsePixelRegion) (s : ℕ)
    (hs : 1 ≤ s) :
    e.to_mask Mode.center s = e.to_mask Mode.subpixels 1 := by
  have h1 : ¬ (s < 1) := by omega
  simp [EllipsePixelRegion.to_mask, h1]

/-- Witness for C2 at the concrete ellipse `E1` and the default
`subpixels=5`. -/
theorem C2_witness :
    1 ≤ 5 ∧ EllipsePixelRegion.to_mask E1 Mode.center 5 =
      EllipsePixelRegion.to_mask E1 Mode.subpixels 1 :=
  ⟨by norm_num, C2_center_mode_equals_subpixels_one E1 5 (by norm_num)⟩

/-- C3: when the include flag is true, `contains` holds iff
`(2 dx_local / width)^2 + (2 dy_local / height)^2 ≤ 1` with
`dx_local = cos(angle) dx + sin(angle) dy`,
`dy_local = sin(angle) dx - cos(angle) dy`; and for the ellipse
`center=(15,10)`, `width=16`, `height=10`, `angle=0`, the point `(15,10)`
is contained while `(15,16)` is not. -/
theorem C3_contains_iff_ellipse_inequality :
    (∀ (e : EllipsePixelRegion) (p : PixCoord), e.incl.getD true = true →
      (e.contains p ↔
        (2 * (Real.cos e.angle * (p.x - e.center.x) + Real.sin e.angle * (p.y - e.center.y)) /
            e.width) ^ 2 +
          (2 * (Real.sin e.angle * (p.x - e.center.x) - Real.cos e.angle * (p.y - e.center.y)) /
            e.height) ^ 2 ≤ 1)) ∧
    E0.contains ⟨15, 10⟩ ∧ ¬ E0.contains ⟨15, 16⟩ := by
  refine ⟨?_, ?_, ?_⟩
  · intro e p h
    unfold EllipsePixelRegion.contains
    rw [h, if_pos rfl]
    exact Iff.rfl
  · norm_num [EllipsePixelRegion.contains, E0, EllipsePixelRegion.in_ell,
      Real.cos_zero, Real.sin_zero]
  · norm_num [EllipsePixelRegion.contains, E0, EllipsePixelRegion.in_ell,
      Real.cos_zero, Real.sin_zero]

/-- Witness for C3: the characterisation applied at `E0` and `(15, 10)`,
whose include flag defaults to true. -/
theorem C3_witness :
    E0.incl.getD true = true ∧
    (E0.contains ⟨15, 10⟩ ↔
      (2 * (Real.cos E0.angle * ((15 : ℝ) - E0.center.x) +
          Real.sin E0.angle * ((10 : ℝ) - E0.center.y)) / E0.width) ^ 2 +
        (2 * (Real.sin E0.angle * ((15 : ℝ) - E0.center.x) -
          Real.cos E0.angle * ((10 : ℝ) - E0.center.y)) / E0.height) ^ 2 ≤ 1) :=
  ⟨rfl, C3_contains_iff_ellipse_inequality.1 E0 ⟨15, 10⟩ rfl⟩

/-- C4 (amended: positive width and height): for every such ellipse whose
angle is a multiple of 90° (`k * pi/2`), `bounding_box` returns the integer
box obtained (via `from_float`) from the continuous axis-aligned extent
`[cx ± w/2] × [cy ± h/2]`, with width and height exchanged at odd
multiples.  For the spec's concrete ellipse this box is
`⟨7, 24, 5, 16⟩`, the half-open cell range covering cells `[7,23]×[5,15]`. -/
theorem C4_bounding_box_axis_aligned (cx cy w h : ℝ) (inc : Option Bool) (k : ℤ)
    (hw : 0 < w) (hh : 0 < h) :
    EllipsePixelRegion.bounding_box ⟨⟨cx, cy⟩, w, h, (k : ℝ) * (Real.pi / 2), inc⟩ =
      some (BoundingBox.from_float (cx - (if k % 2 = 0 then w else h) / 2)
        (cx + (if k % 2 = 0 then w else h) / 2)
        (cy - (if k % 2 = 0 then h else w) / 2)
        (cy + (if k % 2 = 0 then h else w) / 2)) := by
  rcases Int.even_or_odd k with hk | hk
  · have hmod : k % 2 = 0 := Int.even_iff.mp hk
    obtain ⟨j, hj⟩ := hk
    have hθ : (k : ℝ) * (Real.pi / 2) = (j : ℝ) * Real.pi := by
      subst hj; push_cast; ring
    rw [hθ]
    simp only [hmod, if_pos rfl]
    exact bounding_box_axis_even cx cy w h inc j hw hh
  · have hmod : ¬ (k % 2 = 0) := by rw [Int.odd_iff.mp hk]; norm_num
    obtain ⟨j, hj⟩ := hk
    have hθ : (k : ℝ) * (Real.pi / 2) = (j : ℝ) * Real.pi + Real.pi / 2 := by
      subst hj; push_cast; ring
    rw [hθ]
    simp only [if_neg hmod]
    exact bounding_box_axis_odd cx cy w h inc j hw hh

/-- Witness for C4: the spec's concrete scenario, `center=(15,10)`,
`width=16`, `height=10`, `angle=0`. -/
theorem C4_witness : EllipsePixelRegion.bounding_box E0 = some ⟨7, 24, 5, 16⟩ := by
  have h := C4_bounding_box_axis_aligned 15 10 16 10 none 0 (by norm_num) (by norm_num)
  norm_num [BoundingBox.from_float] at h
  have hc1 : ⌈(47 : ℝ) / 2⌉ = 24 := by norm_num [Int.ceil_eq_iff]
  have hc2 : ⌈(31 : ℝ) / 2⌉ = 16 := by norm_num [Int.ceil_eq_iff]
  rw [hc1, hc2] at h
  exact h

/-- Counterexample to C4 as stated: the data model admits `height = 0`
(width, height ≥ 0), and on `Edeg` (`width=1`, `height=0`, `angle=0`, a
multiple of 90°) the code computes `0/0 = nan` and raises inside
`from_float` instead of returning the axis-aligned box. -/
theorem C4_counterexample :
    EllipsePixelRegion.bounding_box Edeg ≠
      some (BoundingBox.from_float (0 - 1 / 2) (0 + 1 / 2) (0 - 0 / 2) (0 + 0 / 2)) := by
  rw [bounding_box_Edeg]
  simp

/-- C5 (amended): the bounding-box computation has no special-cased
axis-aligned branch — the expressions `-h*tan(angle)/w` and
`h/tan(angle)/w` are evaluated unconditionally, and at every even multiple
of 90° the divisor `tan(angle)` is exactly zero, so a division by zero is
evaluated; the IEEE semantics the code relies on (`h/0 = inf`,
`arctan(inf) = pi/2`) nevertheless produce the correct axis-aligned box
for positive width and height. -/
theorem C5_bounding_box_divides_by_zero_yet_correct (cx cy w h : ℝ)
    (inc : Option Bool) (m : ℤ) (hw : 0 < w) (hh : 0 < h) :
    npTan ((m : ℝ) * Real.pi) = NPVal.real 0 ∧
    EllipsePixelRegion.bounding_box ⟨⟨cx, cy⟩, w, h, (m : ℝ) * Real.pi, inc⟩ =
      some (BoundingBox.from_float (cx - w / 2) (cx + w / 2) (cy - h / 2) (cy + h / 2)) :=
  ⟨npTan_int_mul_pi m, bounding_box_axis_even cx cy w h inc m hw hh⟩

/-- Witness for C5 at a concrete ellipse with `angle = 0`. -/
theorem C5_witness :
    npTan (((0 : ℤ) : ℝ) * Real.pi) = NPVal.real 0 ∧
    EllipsePixelRegion.bounding_box ⟨⟨0, 0⟩, 2, 2, ((0 : ℤ) : ℝ) * Real.pi, none⟩ =
      some (BoundingBox.from_float (0 - 2 / 2) (0 + 2 / 2) (0 - 2 / 2) (0 + 2 / 2)) :=
  C5_bounding_box_divides_by_zero_yet_correct 0 0 2 2 none 0 (by norm_num) (by norm_num)

/-- Counterexample to C5 as stated: at `E0` (`angle = 0`, a multiple of
90°) the divisor `tan_angle` of the code's `height / tan_angle / width`
(the term inside `bbox_t1y`, which `bounding_box` always evaluates — there
is no special-cased branch) is exactly zero, and the division by zero is
evaluated, yielding `inf`. -/
theorem C5_counterexample :
    npTan E0.angle = NPVal.real 0 ∧
    E0.bbox_t1y = NPVal.arctan (NPVal.div (NPVal.div (NPVal.real E0.height)
      (NPVal.real 0)) (NPVal.real E0.width)) ∧
    NPVal.div (NPVal.real E0.height) (NPVal.real 0) = NPVal.inf := by
  have htan : npTan (0 : ℝ) = NPVal.real 0 := by
    unfold npTan
    rw [if_neg (by rw [Real.cos_zero]; norm_num), Real.tan_zero]
  refine ⟨htan, ?_, ?_⟩
  · unfold EllipsePixelRegion.bbox_t1y
    rw [show E0.angle = (0 : ℝ) from rfl, htan]
  · norm_num [NPVal.div, E0]

/-- C6: for every pixel-frame ellipse and every projection whose local
linearization at the centre is shared by both directions (and whose scale
is nonzero), `to_sky` followed by `to_pixel` reproduces the original
centre, width, height, angle — exactly, in the idealised real arithmetic. -/
theorem C6_pixel_sky_roundtrip (wcs : WCS) (e : EllipsePixelRegion)
    (hc : (wcs.linearize (wcs.pixel_to_skycoord e.center)).1 = e.center)
    (hs : (wcs.linearize (wcs.pixel_to_skycoord e.center)).2.1 ≠ 0) :
    (e.to_sky wcs).to_pixel wcs = e := by
  obtain ⟨c, w, h, a, inc⟩ := e
  unfold EllipsePixelRegion.to_sky EllipseSkyRegion.to_pixel
  dsimp only at hc hs ⊢
  rw [EllipsePixelRegion.mk.injEq]
  exact ⟨hc, div_mul_cancel₀ w hs, div_mul_cancel₀ h hs, by ring, rfl⟩

/-- An identity projection with scale 1 and north angle 90°, used as a
concrete witness WCS. -/
noncomputable def idWCS : WCS :=
  ⟨fun p => ⟨p.x, p.y⟩, fun s => (⟨s.lon, s.lat⟩, 1, Real.pi / 2)⟩

/-- Witness for C6: the round trip at `E1` through `idWCS`. -/
theorem C6_witness : (E1.to_sky idWCS).to_pixel idWCS = E1 :=
  C6_pixel_sky_roundtrip idWCS E1 rfl one_ne_zero

/-- C7: `to_sky` projects the centre and returns
`width/scale`, `height/scale`, `angle - (north_angle - 90°)` with the meta
passed through; `to_pixel` returns the scalar inverse-projected centre,
`width*scale`, `height*scale`, `angle + (north_angle - 90°)` with the meta
passed through.  Both are pure: they build a fresh value and leave their
argument untouched. -/
theorem C7_frame_transform_formulas (wcs : WCS) (e : EllipsePixelRegion)
    (s : EllipseSkyRegion) :
    (e.to_sky wcs).center = wcs.pixel_to_skycoord e.center ∧
    (e.to_sky wcs).width =
      e.width / (wcs.linearize (wcs.pixel_to_skycoord e.center)).2.1 ∧
    (e.to_sky wcs).height =
      e.height / (wcs.linearize (wcs.pixel_to_skycoord e.center)).2.1 ∧
    (e.to_sky wcs).angle =
      e.angle - ((wcs.linearize (wcs.pixel_to_skycoord e.center)).2.2 - Real.pi / 2) ∧
    (e.to_sky wcs).incl = e.incl ∧
    (s.to_pixel wcs).center = (wcs.linearize s.center).1 ∧
    (s.to_pixel wcs).width = s.width * (wcs.linearize s.center).2.1 ∧
    (s.to_pixel wcs).height = s.height * (wcs.linearize s.center).2.1 ∧
    (s.to_pixel wcs).angle = s.angle + ((wcs.linearize s.center).2.2 - Real.pi / 2) ∧
    (s.to_pixel wcs).incl = s.incl :=
  ⟨rfl, rfl, rfl, rfl, rfl, rfl, rfl, rfl, rfl, rfl⟩

/-- C8: for identical geometry, `contains` under `include = False` is the
logical negation of `contains` under `include = True`, at every point. -/
theorem C8_include_false_negates (c : PixCoord) (w h a : ℝ) (p : PixCoord) :
    EllipsePixelRegion.contains ⟨c, w, h, a, some false⟩ p ↔
      ¬ EllipsePixelRegion.contains ⟨c, w, h, a, some true⟩ p := by
  simp [EllipsePixelRegion.contains, EllipsePixelRegion.in_ell]

/-- C9: constructing the selector binding fails in exactly two cases — a
binding already attached (checked first, `Exception`) and a nonzero angle
(`NotImplementedError`) — and succeeds, returning the region unchanged and
the bound flag set, for an unrotated unbound region. -/
theorem C9_selector_error_cases (e : EllipsePixelRegion) (bound : Bool) :
    ((∃ err, e.as_mpl_selector bound = .error err) ↔ (bound = true ∨ e.angle ≠ 0)) ∧
    (bound = true → e.as_mpl_selector bound = .error SelectorError.alreadyBound) ∧
    (bound = false → e.angle ≠ 0 →
      e.as_mpl_selector bound = .error SelectorError.rotatedRegion) ∧
    (bound = false → e.angle = 0 → e.as_mpl_selector bound = .ok (e, true)) := by
  cases bound <;> by_cases ha : e.angle = 0 <;>
    simp [EllipsePixelRegion.as_mpl_selector, ha]

/-- Witness for C9: the unrotated, unbound `E1` binds successfully and is
left unchanged. -/
theorem C9_witness : E1.as_mpl_selector false = .ok (E1, true) :=
  (C9_selector_error_cases E1 false).2.2.2 rfl rfl

/-- C10: with no `'include'` key in the meta mapping, `contains` behaves
exactly as with an explicit `include = True`, returning the raw ellipse
inequality unnegated. -/
theorem C10_missing_include_defaults_true (c : PixCoord) (w h a : ℝ) (p : PixCoord) :
    (EllipsePixelRegion.contains ⟨c, w, h, a, none⟩ p ↔
      EllipsePixelRegion.contains ⟨c, w, h, a, some true⟩ p) ∧
    (EllipsePixelRegion.contains ⟨c, w, h, a, none⟩ p ↔
      EllipsePixelRegion.in_ell ⟨c, w, h, a, none⟩ p) := by
  simp [EllipsePixelRegion.contains, EllipsePixelRegion.in_ell]
